import Mathlib

/-!
Shallow embedding of `src/object-property-tree.ts` (the single core source file,
`src/unnamed/part_001`): a property-tree builder for JavaScript values with
depth limiting, path-scoped circular-reference detection and per-property
access-error absorption, plus a text renderer with box-drawing connectors.

Modelling decisions:
* JavaScript values are modelled by `Value`; object identity is modelled by a
  heap (`Heap := Nat → HeapObj`) of container contents indexed by ids, with
  `Value.vref id` standing for an object or array reference.  Cyclic object
  graphs are expressed through the heap.
* A property of an object is a `PropSlot`: a plain data property, an accessor
  (getter) whose invocation either returns a value (`some v`) or raises
  (`none`), or a setter-only property with no readable value.
* JavaScript numbers are modelled as integers (`Int`); no claim depends on
  non-integer number values.  The `maxDepth` argument of `buildPropertyTree`
  is modelled as a rational (`ℚ`) so that the negative/non-integer validation
  of the source can be stated.
* String operations (`replace`, `slice`, `.length`) are modelled at the level
  of characters via `String.data`; the inputs in all claims are ASCII, where
  this agrees with JavaScript's UTF-16 code-unit semantics.
* The source builds the tree with an iterative FIFO work queue, but the
  children of any given parent node are appended only while that parent's
  single work item is processed, so the resulting tree is independent of the
  processing order of work items.  The embedding therefore performs the same
  per-member `processChild` step recursively; every field assignment of the
  source is reproduced.
-/

namespace ObjectPropertyTree

/-- Marker string indicating a circular reference was detected
(`CIRCULAR_REFERENCE_MARKER` in the source). -/
def CIRCULAR_REFERENCE_MARKER : String := "[Circular Reference]"

/-- Marker string indicating an error occurred while accessing a property
(`ACCESS_ERROR_MARKER` in the source). -/
def ACCESS_ERROR_MARKER : String := "[Access Error]"

/-- Error thrown by `buildPropertyTree` for an invalid `maxDepth`
(negative or not an integer), carrying the offending depth. -/
structure InvalidDepthError where
  depth : ℚ
deriving DecidableEq, Repr

/-- The closed tag set `PropertyType` of the source.  The constructor `func`
renders as the tag string `"function"` (the word itself is reserved in Lean). -/
inductive PropertyType where
  | object
  | array
  | string
  | number
  | boolean
  | func
  | symbol
  | bigint
  | undefined
  | null
  | error
deriving DecidableEq, Repr

/-- JavaScript runtime values.  Containers (objects and arrays) are
represented by a reference `vref id` into a heap, so that reference identity
and cyclic graphs can be expressed.  Numbers carry an `Int` (see the header
note). -/
inductive Value where
  | vnull
  | vundefined
  | vbool (b : Bool)
  | vnum (n : Int)
  | vstr (s : String)
  | vsym (description : String)
  | vbigint (n : Int)
  | vfunc
  | vref (id : Nat)
deriving DecidableEq, Repr

/-- A property of an object: a plain data property, a getter whose invocation
returns `some v` or raises (`none`), or a setter-only property. -/
inductive PropSlot where
  | data (v : Value)
  | getter (result : Option Value)
  | setterOnly
deriving DecidableEq, Repr

/-- Contents of one heap cell: an object with its own enumerable string keys
in enumeration order, or an array with its elements in order. -/
inductive HeapObj where
  | obj (props : List (String × PropSlot))
  | arr (elems : List Value)
deriving DecidableEq, Repr

/-- A heap assigning contents to every container id. -/
abbrev Heap := Nat → HeapObj

/-- The `getPropertyType` helper of the source: `null` first, then
`Array.isArray`, then the `typeof` switch.  The defensive `"error"` fallback
of the source is unreachable over this value model. -/
def getPropertyType (heap : Heap) (value : Value) : PropertyType :=
  match value with
  | .vnull => .null
  | .vref id =>
    match heap id with
    | .arr _ => .array
    | .obj _ => .object
  | .vstr _ => .string
  | .vnum _ => .number
  | .vbool _ => .boolean
  | .vfunc => .func
  | .vsym _ => .symbol
  | .vbigint _ => .bigint
  | .vundefined => .undefined

/-- A node of the property tree (`PropertyTreeNode` in the source): a name,
a type tag, an optional value and an optional ordered list of children.
`none` for `children` models the attribute being absent, `some []` models an
initialised but empty children array. -/
inductive PropertyTreeNode where
  | mk (name : String) (type : PropertyType) (value : Option Value)
      (children : Option (List PropertyTreeNode))

/-- Name of a node. -/
def PropertyTreeNode.name : PropertyTreeNode → String
  | .mk n _ _ _ => n

/-- Type tag of a node. -/
def PropertyTreeNode.type : PropertyTreeNode → PropertyType
  | .mk _ t _ _ => t

/-- Value of a node, when present. -/
def PropertyTreeNode.value : PropertyTreeNode → Option Value
  | .mk _ _ v _ => v

/-- Children of a node, when present. -/
def PropertyTreeNode.children : PropertyTreeNode → Option (List PropertyTreeNode)
  | .mk _ _ _ c => c

/-- The node the source synthesizes in its `catch` blocks for a property
whose access raised: type `"error"`, value the access-error marker. -/
def accessErrorNode (name : String) : PropertyTreeNode :=
  .mk name .error (some (.vstr ACCESS_ERROR_MARKER)) none

/-- Resolution of one property, as in the per-key body of `buildPropertyTree`:
a getter is invoked (and may raise, `none`); a data descriptor yields its
value; a setter-only descriptor yields `undefined`. -/
def resolveSlot : PropSlot → Option Value
  | .getter result => result
  | .data v => some v
  | .setterOnly => some .vundefined

/-- The `(label, resolved value)` pairs enumerated for one container by the
queue-processing loop of `buildPropertyTree`: indices `[i]` for arrays (plain
element access never raises over this model), resolved descriptors for
objects (`none` marks a getter that raised). -/
def memberSlots (o : HeapObj) : List (String × Option Value) :=
  match o with
  | .arr elems => elems.enum.map (fun p => ("[" ++ toString p.1 ++ "]", some p.2))
  | .obj props => props.map (fun p => (p.1, resolveSlot p.2))

mutual

/-- The `processChild` helper of the source: build the child node, assign its
`value` only for non-container, non-callable types, and for a container
within the depth bound either mark it with the circular-reference marker (if
its reference is already in the path's visited set) or initialise `children`
and expand it with the extended visited set.  Expansion of the enqueued work
item is performed here recursively; see the header note on order
independence. -/
def processChild (heap : Heap) (keyOrIndex : String) (value : Value)
    (currentDepth maxDepth : Nat) (visited : List Nat) : PropertyTreeNode :=
  let childType := getPropertyType heap value
  let baseValue : Option Value :=
    if childType ≠ .object ∧ childType ≠ .array ∧ childType ≠ .func then
      some value
    else none
  if h : currentDepth + 1 < maxDepth ∧ (childType = .object ∨ childType = .array) then
    match value with
    | .vref id =>
      if visited.contains id then
        .mk keyOrIndex childType (some (.vstr CIRCULAR_REFERENCE_MARKER)) none
      else
        .mk keyOrIndex childType baseValue
          (some (processSlots heap (memberSlots (heap id)) (currentDepth + 1) maxDepth
            (id :: visited)))
    | _ => .mk keyOrIndex childType baseValue none
  else
    .mk keyOrIndex childType baseValue none
termination_by (maxDepth - currentDepth, 0)

/-- One pass of the queue-processing loop over the enumerated members of a
container: a member whose access raised (`none`) becomes an access-error
node, every other member goes through `processChild`. -/
def processSlots (heap : Heap) (slots : List (String × Option Value))
    (depth maxDepth : Nat) (visited : List Nat) : List PropertyTreeNode :=
  match slots with
  | [] => []
  | (name, none) :: rest =>
    accessErrorNode name :: processSlots heap rest depth maxDepth visited
  | (name, some v) :: rest =>
    processChild heap name v depth maxDepth visited ::
      processSlots heap rest depth maxDepth visited
termination_by (maxDepth - depth, slots.length + 1)

end

/-- The traversal part of `buildPropertyTree` (everything after the
`maxDepth` validation), with the already-validated depth as a natural
number. -/
def buildTree (heap : Heap) (obj : Value) (maxD : Nat) (rootName : String) :
    PropertyTreeNode :=
  let rootType := getPropertyType heap obj
  if rootType ≠ .object ∧ rootType ≠ .array ∧ rootType ≠ .func then
    .mk rootName rootType (some obj) none
  else if maxD = 0 ∨ obj = .vnull ∨ rootType = .func then
    .mk rootName rootType none none
  else
    match obj with
    | .vref id =>
      .mk rootName rootType none
        (some (processSlots heap (memberSlots (heap id)) 0 maxD [id]))
    | _ => .mk rootName rootType none none

/-- The public `buildPropertyTree`: validate `maxDepth` (negative or
non-integer values raise `InvalidDepthError` before any traversal), then
build the tree. -/
def buildPropertyTree (heap : Heap) (obj : Value) (maxDepth : ℚ)
    (rootName : String) : Except InvalidDepthError PropertyTreeNode :=
  if maxDepth < 0 ∨ ¬maxDepth.isInt then
    .error ⟨maxDepth⟩
  else
    .ok (buildTree heap obj maxDepth.num.toNat rootName)

/-- Tag string printed for a `PropertyType` (the string literals of the
source's union type). -/
def typeName : PropertyType → String
  | .object => "object"
  | .array => "array"
  | .string => "string"
  | .number => "number"
  | .boolean => "boolean"
  | .func => "function"
  | .symbol => "symbol"
  | .bigint => "bigint"
  | .undefined => "undefined"
  | .null => "null"
  | .error => "error"

/-- JavaScript `String(value)` coercion as used by the renderer's template
literals.  For strings it is the string itself; the `vref`/`vfunc` cases are
unreachable on trees produced by `buildPropertyTree` (container and callable
nodes never carry a `value`), so JavaScript's stringification of containers
and functions is not modelled further. -/
def jsTemplate : Value → String
  | .vnull => "null"
  | .vundefined => "undefined"
  | .vbool b => if b then "true" else "false"
  | .vnum n => toString n
  | .vbigint n => toString n
  | .vsym d => "Symbol(" ++ d ++ ")"
  | .vstr s => s
  | .vref _ => "[object Object]"
  | .vfunc => "function"

/-- Character-level model of `value.replace(/\n/g, "\\n")`: each newline
becomes the two-character sequence backslash `n`. -/
def escapeNewlines (s : String) : String :=
  ⟨s.data.foldr (fun c acc => if c = '\n' then '\\' :: 'n' :: acc else c :: acc) []⟩

/-- Character-level model of `s.slice(0, n)` (see the header note on UTF-16
code units versus characters). -/
def sliceChars (s : String) (n : Nat) : String :=
  ⟨s.data.take n⟩

/-- The `: <value>` suffix the renderer appends to a node's line when the
node carries a `value`: the two markers print verbatim; on non-container,
non-callable node types a string value prints newline-escaped, truncated to
50 characters with a three-dot ellipsis when the original string is longer
than 50 characters, wrapped in double quotes, and any other value prints via
`String(value)`. -/
def valueSuffix (type : PropertyType) (value : Option Value) : String :=
  match value with
  | none => ""
  | some v =>
    if v = .vstr CIRCULAR_REFERENCE_MARKER ∨ v = .vstr ACCESS_ERROR_MARKER then
      ": " ++ jsTemplate v
    else if type ≠ .object ∧ type ≠ .array ∧ type ≠ .func then
      match v with
      | .vstr s =>
        let displayValue := sliceChars (escapeNewlines s) 50
        ": \"" ++ (displayValue ++ ((if s.length > 50 then "..." else "") ++ "\""))
      | _ => ": " ++ jsTemplate v
    else ""

/-- The `lines.join("\n")` of the renderer. -/
def joinLines : List String → String
  | [] => ""
  | [line] => line
  | line :: rest => line ++ ("\n" ++ joinLines rest)

mutual

/-- The `formatNodeToString` recursion of the source: connector `└─ ` for a
last sibling and `├─ ` otherwise, then `name (type)` and the value suffix;
children (when present and non-empty) are rendered below with the indent
extended by three blanks after a last sibling and `│  ` otherwise, and all
lines are joined with newlines. -/
def formatNodeToString (node : PropertyTreeNode) (indent : String)
    (isLast : Bool) : String :=
  match node with
  | .mk name type value children =>
    let nodeLine :=
      (indent ++ (if isLast then "└─ " else "├─ ")) ++
        (name ++ ((" (" ++ (typeName type ++ ")")) ++ valueSuffix type value))
    match children with
    | some cs =>
      if cs.length > 0 then
        let childIndent := indent ++ (if isLast then "   " else "│  ")
        joinLines (nodeLine :: formatChildrenLines cs childIndent)
      else nodeLine
    | none => nodeLine

/-- The `children.forEach` loop of `formatNodeToString`: each child is
rendered with `isLast` true exactly for the final child. -/
def formatChildrenLines (cs : List PropertyTreeNode) (childIndent : String) :
    List String :=
  match cs with
  | [] => []
  | c :: rest =>
    formatNodeToString c childIndent rest.isEmpty ::
      formatChildrenLines rest childIndent

end

/-- The public `formatPropertyTreeToString`: render from the root with empty
indent and `isLast = true`. -/
def formatPropertyTreeToString (rootNode : PropertyTreeNode) : String :=
  formatNodeToString rootNode "" true

/-! Helper lemmas about the builder. -/

/-- A natural-number `maxDepth` passes the validation of
`buildPropertyTree`, which then returns the tree built at that depth. -/
theorem buildPropertyTree_natCast (heap : Heap) (obj : Value) (n : ℕ)
    (rootName : String) :
    buildPropertyTree heap obj (n : ℚ) rootName =
      .ok (buildTree heap obj n rootName) := by
  have hlt : ¬((n : ℚ) < 0) := not_lt.mpr (Nat.cast_nonneg n)
  have hint : ((n : ℚ)).isInt = true := by
    simp [Rat.isInt]
  have hnum : ((n : ℚ)).num.toNat = n := by
    simp
  simp [buildPropertyTree, hlt, hint, hnum]

/-- The node `processSlots` produces for one enumerated member. -/
def slotNode (heap : Heap) (depth maxDepth : Nat) (visited : List Nat)
    (p : String × Option Value) : PropertyTreeNode :=
  match p.2 with
  | none => accessErrorNode p.1
  | some v => processChild heap p.1 v depth maxDepth visited

/-- `processSlots` processes every enumerated member independently: it is the
elementwise map of `slotNode`. -/
theorem processSlots_eq_map (heap : Heap) (slots : List (String × Option Value))
    (depth maxDepth : Nat) (visited : List Nat) :
    processSlots heap slots depth maxDepth visited =
      slots.map (slotNode heap depth maxDepth visited) := by
  induction slots with
  | nil => simp [processSlots]
  | cons p rest ih =>
    obtain ⟨name, r⟩ := p
    cases r with
    | none => simp [processSlots, slotNode, ih]
    | some v => simp [processSlots, slotNode, ih]

/-- The type tag of a `processChild` node is the classified type of the
member's value. -/
theorem processChild_type (heap : Heap) (keyOrIndex : String) (value : Value)
    (currentDepth maxDepth : Nat) (visited : List Nat) :
    (processChild heap keyOrIndex value currentDepth maxDepth visited).type =
      getPropertyType heap value := by
  rw [processChild.eq_def]
  split
  · dsimp only
    split
    · split <;> rfl
    · rfl
  · dsimp only
    split <;> rfl

/-- A member of non-container, non-callable type becomes a leaf carrying the
member value verbatim. -/
theorem processChild_terminal (heap : Heap) (keyOrIndex : String)
    (value : Value) (currentDepth maxDepth : Nat) (visited : List Nat)
    (h : getPropertyType heap value ≠ .object ∧
      getPropertyType heap value ≠ .array ∧ getPropertyType heap value ≠ .func) :
    processChild heap keyOrIndex value currentDepth maxDepth visited =
      .mk keyOrIndex (getPropertyType heap value) (some value) none := by
  rw [processChild.eq_def]
  have hnc : ¬(getPropertyType heap value = .object ∨ getPropertyType heap value = .array) := by
    rcases h with ⟨h1, h2, _⟩
    rintro (hh | hh) <;> [exact h1 hh; exact h2 hh]
  have hcond : ¬(currentDepth + 1 < maxDepth ∧
      (getPropertyType heap value = .object ∨ getPropertyType heap value = .array)) := by
    rintro ⟨-, hh⟩
    exact hnc hh
  rw [dif_neg hcond, if_pos h]

/-- A container member within the depth bound whose reference is already in
the path's visited set becomes a circular-reference node: the marker as its
value, no children. -/
theorem processChild_cycle (heap : Heap) (keyOrIndex : String) (id : Nat)
    (currentDepth maxDepth : Nat) (visited : List Nat)
    (hd : currentDepth + 1 < maxDepth) (hv : id ∈ visited) :
    processChild heap keyOrIndex (.vref id) currentDepth maxDepth visited =
      .mk keyOrIndex (getPropertyType heap (.vref id))
        (some (.vstr CIRCULAR_REFERENCE_MARKER)) none := by
  have hta : getPropertyType heap (.vref id) = .object ∨
      getPropertyType heap (.vref id) = .array := by
    cases hobj : heap id <;> simp [getPropertyType, hobj]
  rw [processChild.eq_def, dif_pos ⟨hd, hta⟩]
  simp [List.contains, hv]

/-- A container member within the depth bound whose reference is not yet
visited is expanded: no value, children initialised from its members with the
visited set extended by its own reference. -/
theorem processChild_expand (heap : Heap) (keyOrIndex : String) (id : Nat)
    (currentDepth maxDepth : Nat) (visited : List Nat)
    (hd : currentDepth + 1 < maxDepth) (hv : id ∉ visited) :
    processChild heap keyOrIndex (.vref id) currentDepth maxDepth visited =
      .mk keyOrIndex (getPropertyType heap (.vref id)) none
        (some (processSlots heap (memberSlots (heap id)) (currentDepth + 1)
          maxDepth (id :: visited))) := by
  have hta : getPropertyType heap (.vref id) = .object ∨
      getPropertyType heap (.vref id) = .array := by
    cases hobj : heap id <;> simp [getPropertyType, hobj]
  have hbv : (if getPropertyType heap (.vref id) ≠ .object ∧
      getPropertyType heap (.vref id) ≠ .array ∧
      getPropertyType heap (.vref id) ≠ .func then
        some (Value.vref id) else none) = none := by
    rcases hta with hta | hta <;> simp [hta]
  rw [processChild.eq_def, dif_pos ⟨hd, hta⟩]
  have hcv : (List.contains visited id) = false := by
    simp [List.contains, hv]
  dsimp only
  simp only [hcv, Bool.false_eq_true, if_false, hbv]

/-- A container or callable member at the depth bound (or a callable at any
depth) becomes an unexpanded leaf: no value, no children. -/
theorem processChild_unexpanded (heap : Heap) (keyOrIndex : String)
    (value : Value) (currentDepth maxDepth : Nat) (visited : List Nat)
    (hty : getPropertyType heap value = .object ∨
      getPropertyType heap value = .array ∨ getPropertyType heap value = .func)
    (hd : getPropertyType heap value = .func ∨ ¬currentDepth + 1 < maxDepth) :
    processChild heap keyOrIndex value currentDepth maxDepth visited =
      .mk keyOrIndex (getPropertyType heap value) none none := by
  have hbv : (if getPropertyType heap value ≠ .object ∧
      getPropertyType heap value ≠ .array ∧
      getPropertyType heap value ≠ .func then
        some value else none) = none := by
    rcases hty with hta | hta | hta <;> simp [hta]
  rw [processChild.eq_def]
  rcases hd with hf | hnd
  · have hno : ¬(currentDepth + 1 < maxDepth ∧
        (getPropertyType heap value = .object ∨ getPropertyType heap value = .array)) := by
      rintro ⟨-, hh | hh⟩ <;> rw [hf] at hh <;> exact PropertyType.noConfusion hh
    rw [dif_neg hno, hbv]
  · have hno : ¬(currentDepth + 1 < maxDepth ∧
        (getPropertyType heap value = .object ∨ getPropertyType heap value = .array)) := by
      rintro ⟨hh, -⟩
      exact hnd hh
    rw [dif_neg hno, hbv]

/-! Depth-indexed invariants over whole trees. -/

mutual

/-- `P` holds at every node of the tree, where a node at depth `d` from the
root is checked with `P d`. -/
def nodeAll (P : Nat → PropertyTreeNode → Bool) (d : Nat) :
    PropertyTreeNode → Bool
  | .mk name type value none => P d (.mk name type value none)
  | .mk name type value (some cs) =>
    P d (.mk name type value (some cs)) && listAll P (d + 1) cs

/-- `nodeAll P d` holds for every tree in the list. -/
def listAll (P : Nat → PropertyTreeNode → Bool) (d : Nat) :
    List PropertyTreeNode → Bool
  | [] => true
  | c :: rest => nodeAll P d c && listAll P d rest

end

/-- `listAll` is `List.all` of `nodeAll`. -/
theorem listAll_eq_all (P : Nat → PropertyTreeNode → Bool) (d : Nat)
    (cs : List PropertyTreeNode) : listAll P d cs = cs.all (nodeAll P d) := by
  induction cs with
  | nil => simp [listAll]
  | cons c rest ih => simp [listAll, ih]

mutual

/-- Monotonicity of `nodeAll` in the predicate. -/
theorem nodeAll_imp (P Q : Nat → PropertyTreeNode → Bool)
    (hPQ : ∀ d n, P d n = true → Q d n = true) (d : Nat)
    (t : PropertyTreeNode) (h : nodeAll P d t = true) : nodeAll Q d t = true :=
  match t with
  | .mk name type value none => by
    rw [nodeAll] at h ⊢
    exact hPQ d _ h
  | .mk name type value (some cs) => by
    rw [nodeAll] at h ⊢
    rw [Bool.and_eq_true] at h ⊢
    exact ⟨hPQ d _ h.1, listAll_imp P Q hPQ (d + 1) cs h.2⟩

/-- Monotonicity of `listAll` in the predicate. -/
theorem listAll_imp (P Q : Nat → PropertyTreeNode → Bool)
    (hPQ : ∀ d n, P d n = true → Q d n = true) (d : Nat)
    (cs : List PropertyTreeNode) (h : listAll P d cs = true) :
    listAll Q d cs = true :=
  match cs with
  | [] => by rw [listAll]
  | c :: rest => by
    rw [listAll] at h ⊢
    rw [Bool.and_eq_true] at h ⊢
    exact ⟨nodeAll_imp P Q hPQ d c h.1, listAll_imp P Q hPQ d rest h.2⟩

end

/-- The per-node shape invariant of trees produced by the builder, at depth
`d` from the root with depth bound `maxD`: a container node has `children`
present exactly when it is within the depth bound and not a detected cycle; a
container node carrying a `value` is exactly the circular-reference case; no
node has both `value` and `children`; and no node's `value` is a container
reference or a callable. -/
def builtNodeOk (maxD d : Nat) (node : PropertyTreeNode) : Bool :=
  match node with
  | .mk _ type value children =>
    (if type = .object ∨ type = .array then
      children.isSome = (decide (d < maxD) && value.isNone)
     else true)
    &&
    ((if (type = .object ∨ type = .array) ∧ value.isSome then
      decide (value = some (.vstr CIRCULAR_REFERENCE_MARKER)) && children.isNone
     else true)
    &&
    ((!(value.isSome && children.isSome))
    &&
    (match value with
     | some (.vref _) => false
     | some .vfunc => false
     | _ => true)))

/-- Access-error nodes satisfy the shape invariant. -/
theorem accessErrorNode_builtOk (maxD d : Nat) (name : String) :
    nodeAll (builtNodeOk maxD) d (accessErrorNode name) = true := by
  simp [nodeAll, builtNodeOk, accessErrorNode]

/-- Every node produced by `processChild` at parent depth `d`, together with
its whole subtree, satisfies the shape invariant (the node itself sits at
depth `d + 1`). -/
theorem processChild_builtOk (heap : Heap) (maxD : Nat) :
    ∀ fuel d, maxD ≤ d + 1 + fuel →
      ∀ name v visited,
        nodeAll (builtNodeOk maxD) (d + 1)
          (processChild heap name v d maxD visited) = true := by
  intro fuel
  induction fuel with
  | zero =>
    intro d hd name v visited
    have hnd : ¬(d + 1 < maxD) := by omega
    cases v with
    | vnull =>
      rw [processChild_terminal _ _ _ _ _ _ (by simp [getPropertyType])]
      simp [nodeAll, builtNodeOk, getPropertyType]
    | vundefined =>
      rw [processChild_terminal _ _ _ _ _ _ (by simp [getPropertyType])]
      simp [nodeAll, builtNodeOk, getPropertyType]
    | vbool b =>
      rw [processChild_terminal _ _ _ _ _ _ (by simp [getPropertyType])]
      simp [nodeAll, builtNodeOk, getPropertyType]
    | vnum n =>
      rw [processChild_terminal _ _ _ _ _ _ (by simp [getPropertyType])]
      simp [nodeAll, builtNodeOk, getPropertyType]
    | vstr s =>
      rw [processChild_terminal _ _ _ _ _ _ (by simp [getPropertyType])]
      simp [nodeAll, builtNodeOk, getPropertyType]
    | vsym s =>
      rw [processChild_terminal _ _ _ _ _ _ (by simp [getPropertyType])]
      simp [nodeAll, builtNodeOk, getPropertyType]
    | vbigint n =>
      rw [processChild_terminal _ _ _ _ _ _ (by simp [getPropertyType])]
      simp [nodeAll, builtNodeOk, getPropertyType]
    | vfunc =>
      rw [processChild_unexpanded _ _ _ _ _ _ (by simp [getPropertyType])
        (Or.inl (by simp [getPropertyType]))]
      simp [nodeAll, builtNodeOk, getPropertyType]
    | vref id =>
      have hta : getPropertyType heap (.vref id) = .object ∨
          getPropertyType heap (.vref id) = .array := by
        cases hobj : heap id <;> simp [getPropertyType, hobj]
      rw [processChild_unexpanded _ _ _ _ _ _
        (by rcases hta with h | h <;> simp [h]) (Or.inr hnd)]
      rcases hta with h | h <;> simp [nodeAll, builtNodeOk, h, hnd]
  | succ fuel ih =>
    intro d hd name v visited
    cases v with
    | vnull =>
      rw [processChild_terminal _ _ _ _ _ _ (by simp [getPropertyType])]
      simp [nodeAll, builtNodeOk, getPropertyType]
    | vundefined =>
      rw [processChild_terminal _ _ _ _ _ _ (by simp [getPropertyType])]
      simp [nodeAll, builtNodeOk, getPropertyType]
    | vbool b =>
      rw [processChild_terminal _ _ _ _ _ _ (by simp [getPropertyType])]
      simp [nodeAll, builtNodeOk, getPropertyType]
    | vnum n =>
      rw [processChild_terminal _ _ _ _ _ _ (by simp [getPropertyType])]
      simp [nodeAll, builtNodeOk, getPropertyType]
    | vstr s =>
      rw [processChild_terminal _ _ _ _ _ _ (by simp [getPropertyType])]
      simp [nodeAll, builtNodeOk, getPropertyType]
    | vsym s =>
      rw [processChild_terminal _ _ _ _ _ _ (by simp [getPropertyType])]
      simp [nodeAll, builtNodeOk, getPropertyType]
    | vbigint n =>
      rw [processChild_terminal _ _ _ _ _ _ (by simp [getPropertyType])]
      simp [nodeAll, builtNodeOk, getPropertyType]
    | vfunc =>
      rw [processChild_unexpanded _ _ _ _ _ _ (by simp [getPropertyType])
        (Or.inl (by simp [getPropertyType]))]
      simp [nodeAll, builtNodeOk, getPropertyType]
    | vref id =>
      have hta : getPropertyType heap (.vref id) = .object ∨
          getPropertyType heap (.vref id) = .array := by
        cases hobj : heap id <;> simp [getPropertyType, hobj]
      by_cases hlt : d + 1 < maxD
      · by_cases hv : id ∈ visited
        · rw [processChild_cycle _ _ _ _ _ _ hlt hv]
          rcases hta with h | h <;>
            simp [nodeAll, builtNodeOk, h, hlt, CIRCULAR_REFERENCE_MARKER]
        · rw [processChild_expand _ _ _ _ _ _ hlt hv]
          have hchildren :
              listAll (builtNodeOk maxD) (d + 1 + 1)
                (processSlots heap (memberSlots (heap id)) (d + 1) maxD
                  (id :: visited)) = true := by
            rw [processSlots_eq_map, listAll_eq_all, List.all_eq_true]
            intro node hnode
            rw [List.mem_map] at hnode
            obtain ⟨p, -, hp⟩ := hnode
            obtain ⟨pname, pval⟩ := p
            cases pval with
            | none =>
              rw [← hp]
              exact accessErrorNode_builtOk maxD (d + 1 + 1) pname
            | some v' =>
              rw [← hp]
              exact ih (d + 1) (by omega) pname v' (id :: visited)
          rcases hta with h | h <;>
            rw [nodeAll] <;>
            simp [builtNodeOk, h, hlt, hchildren]
      · rw [processChild_unexpanded _ _ _ _ _ _
          (by rcases hta with h | h <;> simp [h]) (Or.inr hlt)]
        rcases hta with h | h <;> simp [nodeAll, builtNodeOk, h, hlt]

/-- Every tree produced by `buildTree` satisfies the shape invariant. -/
theorem buildTree_builtOk (heap : Heap) (obj : Value) (maxD : Nat)
    (rootName : String) :
    nodeAll (builtNodeOk maxD) 0 (buildTree heap obj maxD rootName) = true := by
  rw [buildTree.eq_def]
  dsimp only
  split
  · rename_i hterm
    cases obj with
    | vref id =>
      exfalso
      cases hobj : heap id with
      | obj props => exact hterm.1 (by simp [getPropertyType, hobj])
      | arr elems => exact hterm.2.1 (by simp [getPropertyType, hobj])
    | vfunc => exact absurd (by simp [getPropertyType]) hterm.2.2
    | vnull => simp [nodeAll, builtNodeOk, getPropertyType]
    | vundefined => simp [nodeAll, builtNodeOk, getPropertyType]
    | vbool b => simp [nodeAll, builtNodeOk, getPropertyType]
    | vnum n => simp [nodeAll, builtNodeOk, getPropertyType]
    | vstr s => simp [nodeAll, builtNodeOk, getPropertyType]
    | vsym s => simp [nodeAll, builtNodeOk, getPropertyType]
    | vbigint n => simp [nodeAll, builtNodeOk, getPropertyType]
  · rename_i hterm
    push_neg at hterm
    split
    · rename_i hstop
      rcases hstop with h0 | hnull | hfunc
      · subst h0
        by_cases hc : getPropertyType heap obj = .object ∨ getPropertyType heap obj = .array
        · rcases hc with h | h <;> simp [nodeAll, builtNodeOk, h]
        · push_neg at hc
          simp [nodeAll, builtNodeOk, hc.1, hc.2]
      · subst hnull
        exact absurd (hterm (by simp [getPropertyType]) (by simp [getPropertyType]))
          (by simp [getPropertyType])
      · simp [nodeAll, builtNodeOk, hfunc]
    · rename_i hstop
      push_neg at hstop
      cases obj with
      | vref id =>
        dsimp only
        have hchildren :
            listAll (builtNodeOk maxD) 1
              (processSlots heap (memberSlots (heap id)) 0 maxD [id]) = true := by
          rw [processSlots_eq_map, listAll_eq_all, List.all_eq_true]
          intro node hnode
          rw [List.mem_map] at hnode
          obtain ⟨p, -, hp⟩ := hnode
          obtain ⟨pname, pval⟩ := p
          cases pval with
          | none =>
            rw [← hp]
            exact accessErrorNode_builtOk maxD 1 pname
          | some v' =>
            rw [← hp]
            exact processChild_builtOk heap maxD maxD 0 (by omega) pname v' [id]
        have hpos : 0 < maxD := Nat.pos_of_ne_zero hstop.1
        have hta : getPropertyType heap (.vref id) = .object ∨
            getPropertyType heap (.vref id) = .array := by
          cases hobj : heap id <;> simp [getPropertyType, hobj]
        rcases hta with h | h <;>
          rw [nodeAll] <;>
          simp [builtNodeOk, h, hpos, hchildren]
      | vfunc => exact absurd (by simp [getPropertyType]) hstop.2.2
      | vnull => exact absurd rfl hstop.2.1
      | vundefined =>
        exact absurd (hterm (by simp [getPropertyType]) (by simp [getPropertyType]))
          (by simp [getPropertyType])
      | vbool b =>
        exact absurd (hterm (by simp [getPropertyType]) (by simp [getPropertyType]))
          (by simp [getPropertyType])
      | vnum n =>
        exact absurd (hterm (by simp [getPropertyType]) (by simp [getPropertyType]))
          (by simp [getPropertyType])
      | vstr s =>
        exact absurd (hterm (by simp [getPropertyType]) (by simp [getPropertyType]))
          (by simp [getPropertyType])
      | vsym s =>
        exact absurd (hterm (by simp [getPropertyType]) (by simp [getPropertyType]))
          (by simp [getPropertyType])
      | vbigint n =>
        exact absurd (hterm (by simp [getPropertyType]) (by simp [getPropertyType]))
          (by simp [getPropertyType])

/-! Claim-level predicates and example heaps. -/

/-- Per-node depth condition as the code realises it: a container node has
`children` present iff its depth from the root is below `maxD` and it is not
a circular-reference node (its `value` is absent). -/
def depthChildrenOk (maxD d : Nat) (node : PropertyTreeNode) : Bool :=
  if node.type = .object ∨ node.type = .array then
    node.children.isSome = (decide (d < maxD) && node.value.isNone)
  else true

/-- Modelled from the spec: the claimed per-node depth condition, following
the spec's words "`children` is present on a container node iff its
depth-from-root `< maxDepth`", with no exception for cycle nodes.  Used only
to compare the claim against the code. -/
def claimedDepthChildrenOk (maxD d : Nat) (node : PropertyTreeNode) : Bool :=
  if node.type = .object ∨ node.type = .array then
    node.children.isSome = decide (d < maxD)
  else true

/-- Per-node shape: never both `value` and `children`; a container node
carrying a `value` is exactly the circular-reference case (`value` is the
marker and `children` is absent). -/
def nodeShapeOk (node : PropertyTreeNode) : Bool :=
  (!(node.value.isSome && node.children.isSome)) &&
  (if (node.type = .object ∨ node.type = .array) ∧ node.value.isSome then
    decide (node.value = some (.vstr CIRCULAR_REFERENCE_MARKER)) && node.children.isNone
   else true)

/-- A heap whose object `0` has a single self-referencing property
`self` (the `a.self = a` example of the spec). -/
def exampleSelfHeap : Heap := fun _ => .obj [("self", .data (.vref 0))]

theorem builtNodeOk_imp_depth (maxD d : Nat) (n : PropertyTreeNode)
    (h : builtNodeOk maxD d n = true) : depthChildrenOk maxD d n = true := by
  obtain ⟨name, ty, v, ch⟩ := n
  rw [builtNodeOk.eq_def] at h
  dsimp only at h
  rw [Bool.and_eq_true, Bool.and_eq_true, Bool.and_eq_true] at h
  rw [depthChildrenOk]
  exact h.1

theorem builtNodeOk_imp_shape (maxD d : Nat) (n : PropertyTreeNode)
    (h : builtNodeOk maxD d n = true) : nodeShapeOk n = true := by
  obtain ⟨name, ty, v, ch⟩ := n
  rw [builtNodeOk.eq_def] at h
  dsimp only at h
  rw [Bool.and_eq_true, Bool.and_eq_true, Bool.and_eq_true] at h
  rw [nodeShapeOk, Bool.and_eq_true]
  exact ⟨h.2.2.1, h.2.1⟩

/-- Any `ok` result of `buildPropertyTree` is `buildTree` at the truncated
depth. -/
theorem buildPropertyTree_ok (heap : Heap) (obj : Value) (q : ℚ)
    (rootName : String) (t : PropertyTreeNode)
    (h : buildPropertyTree heap obj q rootName = .ok t) :
    t = buildTree heap obj q.num.toNat rootName := by
  rw [buildPropertyTree] at h
  split at h
  · exact Except.noConfusion h
  · injection h with h
    exact h.symm

/-! Claim C1: circular-reference marking of a self-referencing property. -/

/-- C1, amended: a self-referencing property `self` builds to a composite
child node carrying the circular-reference marker with `children` absent for
every integer `maxDepth ≥ 2`.  (At `maxDepth = 1` the depth bound stops the
child before the cycle check and no marker is assigned; see the
counterexample.) -/
theorem C1_self_cycle_marker (heap : Heap) (id : Nat)
    (ps₁ ps₂ : List (String × PropSlot)) (n : ℕ) (rootName : String)
    (hobj : heap id = .obj (ps₁ ++ ("self", .data (.vref id)) :: ps₂))
    (hn : 2 ≤ n) :
    ∃ cs, buildPropertyTree heap (.vref id) (n : ℚ) rootName =
        .ok (.mk rootName .object none (some cs)) ∧
      cs[ps₁.length]? =
        some (.mk "self" .object (some (.vstr CIRCULAR_REFERENCE_MARKER)) none) := by
  have hty : getPropertyType heap (.vref id) = .object := by
    simp [getPropertyType, hobj]
  have hn0 : n ≠ 0 := by omega
  rw [buildPropertyTree_natCast]
  rw [buildTree.eq_def]
  dsimp only
  rw [hty]
  simp only [ne_eq, not_true_eq_false, false_and, if_false, reduceCtorEq, or_false,
    or_self, hn0, if_neg, ite_false]
  refine ⟨processSlots heap (memberSlots (heap id)) 0 n [id], rfl, ?_⟩
  · rw [hobj]
    rw [memberSlots]
    rw [processSlots_eq_map]
    simp only [List.map_append, List.map_cons]
    rw [List.getElem?_append_right (by simp)]
    simp only [List.length_map, Nat.sub_self, List.getElem?_cons_zero]
    rw [slotNode]
    dsimp only [resolveSlot]
    rw [processChild_cycle heap "self" id 0 n [id] (by omega) (by simp)]
    rw [hty]

/-- C1 counterexample: at `maxDepth = 1` (which the claim includes via
"every maxDepth ≥ 1") the `self` child of the self-referencing object is an
unexpanded container node whose `value` is absent, not the circular-reference
marker. -/
theorem C1_counterexample :
    buildPropertyTree exampleSelfHeap (.vref 0) ((1 : ℕ) : ℚ) "root" =
      .ok (.mk "root" .object none (some [.mk "self" .object none none])) ∧
    (PropertyTreeNode.mk "self" .object none none).value ≠
      some (.vstr CIRCULAR_REFERENCE_MARKER) := by
  constructor
  · rw [buildPropertyTree_natCast]
    simp [buildTree, getPropertyType, exampleSelfHeap, memberSlots, resolveSlot,
      processSlots, processChild]
  · simp [PropertyTreeNode.value]

/-- Closed instance of `C1_self_cycle_marker` at the example heap. -/
theorem C1_witness :
    ∃ cs, buildPropertyTree exampleSelfHeap (.vref 0) ((2 : ℕ) : ℚ) "root" =
        .ok (.mk "root" .object none (some cs)) ∧
      cs[0]? =
        some (.mk "self" .object (some (.vstr CIRCULAR_REFERENCE_MARKER)) none) := by
  simpa using
    C1_self_cycle_marker exampleSelfHeap 0 [] [] 2 "root" rfl (by norm_num)

/-! Claim C2: children presence versus depth. -/

/-- C2, amended: in every tree built for a container root at integer depth
`maxDepth`, a composite/list node has `children` present iff its depth from
the root is below `maxDepth` and the node is not a circular-reference node
(its `value` is absent); and at `maxDepth = 0` the rendered output is exactly
one line.  (The cycle exception is forced by the counterexample.) -/
theorem C2_depth_children :
    (∀ (heap : Heap) (id : Nat) (n : ℕ) (rootName : String) (t : PropertyTreeNode),
      buildPropertyTree heap (.vref id) (n : ℚ) rootName = .ok t →
      nodeAll (depthChildrenOk n) 0 t = true) ∧
    (∀ (heap : Heap) (id : Nat) (t : PropertyTreeNode),
      buildPropertyTree heap (.vref id) ((0 : ℕ) : ℚ) "root" = .ok t →
      formatPropertyTreeToString t ≠ "" ∧
        '\n' ∉ (formatPropertyTreeToString t).data) := by
  constructor
  · intro heap id n rootName t h
    rw [buildPropertyTree_natCast] at h
    injection h with h
    rw [← h]
    exact nodeAll_imp _ _ (fun d node => builtNodeOk_imp_depth n d node) 0 _
      (buildTree_builtOk heap (.vref id) n rootName)
  · intro heap id t h
    rw [buildPropertyTree_natCast] at h
    injection h with h
    cases hobj : heap id with
    | obj props =>
      have hty : getPropertyType heap (.vref id) = .object := by
        simp [getPropertyType, hobj]
      have ht : t = .mk "root" .object none none := by
        rw [← h, buildTree.eq_def]
        dsimp only
        rw [hty]
        simp
      rw [ht]
      constructor
      · intro hc
        exact absurd hc (by decide)
      · decide
    | arr elems =>
      have hty : getPropertyType heap (.vref id) = .array := by
        simp [getPropertyType, hobj]
      have ht : t = .mk "root" .array none none := by
        rw [← h, buildTree.eq_def]
        dsimp only
        rw [hty]
        simp
      rw [ht]
      constructor
      · intro hc
        exact absurd hc (by decide)
      · decide

/-- C2 counterexample: the claim's unconditional "children present iff
depth < maxDepth" fails on a circular-reference node — at `maxDepth = 2` the
`self` child sits at depth `1 < 2` yet its `children` is absent. -/
theorem C2_counterexample :
    buildPropertyTree exampleSelfHeap (.vref 0) ((2 : ℕ) : ℚ) "root" =
      .ok (.mk "root" .object none
        (some [.mk "self" .object (some (.vstr CIRCULAR_REFERENCE_MARKER)) none])) ∧
    nodeAll (claimedDepthChildrenOk 2) 0
      (.mk "root" .object none
        (some [.mk "self" .object (some (.vstr CIRCULAR_REFERENCE_MARKER)) none])) =
      false := by
  constructor
  · rw [buildPropertyTree_natCast]
    simp [buildTree, getPropertyType, exampleSelfHeap, memberSlots, resolveSlot,
      processSlots, processChild, CIRCULAR_REFERENCE_MARKER]
  · simp [nodeAll, listAll, claimedDepthChildrenOk, PropertyTreeNode.type,
      PropertyTreeNode.children]

/-- Closed instance of both parts of `C2_depth_children` at the example
heap. -/
theorem C2_witness :
    nodeAll (depthChildrenOk 2) 0
      (.mk "root" .object none
        (some [.mk "self" .object (some (.vstr CIRCULAR_REFERENCE_MARKER)) none])) =
      true ∧
    formatPropertyTreeToString (.mk "root" .object none none) ≠ "" := by
  constructor
  · refine C2_depth_children.1 exampleSelfHeap 0 2 "root" _ ?_
    rw [buildPropertyTree_natCast]
    simp [buildTree, getPropertyType, exampleSelfHeap, memberSlots, resolveSlot,
      processSlots, processChild, CIRCULAR_REFERENCE_MARKER]
  · refine (C2_depth_children.2 exampleSelfHeap 0 _ ?_).1
    rw [buildPropertyTree_natCast]
    simp [buildTree, getPropertyType, exampleSelfHeap]

/-! Claim C6: per-node value/children shape invariant. -/

/-- C6: every node of every tree returned by `buildPropertyTree` has at most
one of `value` and `children` present, and a composite/list node carrying a
`value` is exactly the circular-reference case: the value is the fixed marker
and `children` is absent. -/
theorem C6_node_shape (heap : Heap) (obj : Value) (q : ℚ) (rootName : String)
    (t : PropertyTreeNode) (h : buildPropertyTree heap obj q rootName = .ok t) :
    nodeAll (fun _ node => nodeShapeOk node) 0 t = true := by
  have ht := buildPropertyTree_ok heap obj q rootName t h
  rw [ht]
  exact nodeAll_imp _ _ (fun d node => builtNodeOk_imp_shape q.num.toNat d node) 0 _
    (buildTree_builtOk heap obj q.num.toNat rootName)

/-- Closed instance of `C6_node_shape` at the example heap. -/
theorem C6_witness :
    nodeAll (fun _ node => nodeShapeOk node) 0
      (.mk "root" .object none
        (some [.mk "self" .object (some (.vstr CIRCULAR_REFERENCE_MARKER)) none])) =
      true := by
  refine C6_node_shape exampleSelfHeap (.vref 0) ((2 : ℕ) : ℚ) "root" _ ?_
  rw [buildPropertyTree_natCast]
  simp [buildTree, getPropertyType, exampleSelfHeap, memberSlots, resolveSlot,
    processSlots, processChild, CIRCULAR_REFERENCE_MARKER]


/-! Claim C4: maxDepth validation. -/

/-- C4: `buildPropertyTree` fails with `InvalidDepthError` carrying the
offending depth exactly when `maxDepth` is negative or not an integer; the
error is independent of the input value (the check precedes any traversal);
and `maxDepth = 0` never fails. -/
theorem C4_depth_validation :
    (∀ (heap : Heap) (obj : Value) (q : ℚ) (rootName : String),
      buildPropertyTree heap obj q rootName = .error ⟨q⟩ ↔
        (q < 0 ∨ q.isInt = false)) ∧
    (∀ (heap : Heap) (obj : Value) (q : ℚ) (rootName : String)
      (e : InvalidDepthError),
      buildPropertyTree heap obj q rootName = .error e → e.depth = q) ∧
    (∀ (heap : Heap) (obj : Value) (rootName : String),
      ∃ t, buildPropertyTree heap obj (0 : ℚ) rootName = .ok t) := by
  refine ⟨?_, ?_, ?_⟩
  · intro heap obj q rootName
    rw [buildPropertyTree]
    constructor
    · intro h
      split at h
      · rename_i hcond
        rcases hcond with h1 | h2
        · exact Or.inl h1
        · exact Or.inr (by simpa using h2)
      · exact Except.noConfusion h
    · intro h
      have hcond : q < 0 ∨ ¬q.isInt = true := by
        rcases h with h | h
        · exact Or.inl h
        · exact Or.inr (by simp [h])
      rw [if_pos hcond]
  · intro heap obj q rootName e h
    rw [buildPropertyTree] at h
    split at h
    · injection h with h
      rw [← h]
    · exact Except.noConfusion h
  · intro heap obj rootName
    refine ⟨buildTree heap obj 0 rootName, ?_⟩
    have h0 : ¬((0 : ℚ) < 0 ∨ ¬(0 : ℚ).isInt = true) := by
      norm_num [Rat.isInt]
    rw [buildPropertyTree, if_neg h0]
    norm_num

/-- Closed instance of `C4_depth_validation`: `-1` and `3/2` fail with the
error carrying the offending depth, `0` succeeds. -/
theorem C4_witness :
    buildPropertyTree exampleSelfHeap .vnull (-1 : ℚ) "root" = .error ⟨-1⟩ ∧
    buildPropertyTree exampleSelfHeap .vnull (3 / 2 : ℚ) "root" = .error ⟨3 / 2⟩ ∧
    (∃ t, buildPropertyTree exampleSelfHeap .vnull (0 : ℚ) "root" = .ok t) :=
  ⟨(C4_depth_validation.1 exampleSelfHeap .vnull (-1) "root").mpr
      (Or.inl (by norm_num)),
   (C4_depth_validation.1 exampleSelfHeap .vnull (3 / 2) "root").mpr
      (Or.inr (by norm_num [Rat.isInt])),
   C4_depth_validation.2.2 exampleSelfHeap .vnull "root"⟩

/-! Claim C7: setter-only properties. -/

/-- C7 counterexample: the claim says a setter-only member maps to the
`nothing` kind and the `nothing` sentinel, which in the source's tag
vocabulary is `null` (checked first by `getPropertyType`, exactly as the
`nothing`-value is classified first); the code instead resolves a setter-only
descriptor to `undefined`, so the built child carries the `undefined` kind
and the `undefined` sentinel, not the `null` ones. -/
theorem C7_counterexample :
    buildPropertyTree (fun _ => .obj [("w", .setterOnly)]) (.vref 0)
        ((1 : ℕ) : ℚ) "root" =
      .ok (.mk "root" .object none
        (some [.mk "w" .undefined (some .vundefined) none])) ∧
    PropertyType.undefined ≠ PropertyType.null ∧
    (some Value.vundefined ≠ some Value.vnull) := by
  refine ⟨?_, by decide, by decide⟩
  rw [buildPropertyTree_natCast]
  simp [buildTree, getPropertyType, memberSlots, resolveSlot, processSlots,
    processChild]

/-- C7, amended: a composite member whose property descriptor has neither a
readable value nor a getter (setter-only) builds to a node of `undefined`
kind — the spec's `absent` sentinel, not its `nothing`/`null` one — carrying
the `undefined` sentinel as its value, and not to an access-error node. -/
theorem C7_setter_only (heap : Heap) (id : Nat)
    (ps₁ ps₂ : List (String × PropSlot)) (k : String) (n : ℕ)
    (rootName : String)
    (hobj : heap id = .obj (ps₁ ++ (k, .setterOnly) :: ps₂)) (hn : 1 ≤ n) :
    ∃ cs, buildPropertyTree heap (.vref id) (n : ℚ) rootName =
        .ok (.mk rootName .object none (some cs)) ∧
      cs[ps₁.length]? = some (.mk k .undefined (some .vundefined) none) ∧
      PropertyType.undefined ≠ PropertyType.error := by
  have hty : getPropertyType heap (.vref id) = .object := by
    simp [getPropertyType, hobj]
  have hn0 : n ≠ 0 := by omega
  rw [buildPropertyTree_natCast]
  rw [buildTree.eq_def]
  dsimp only
  rw [hty]
  simp only [ne_eq, not_true_eq_false, false_and, if_false, reduceCtorEq, or_false,
    or_self, hn0, if_neg, ite_false]
  refine ⟨processSlots heap (memberSlots (heap id)) 0 n [id], rfl, ?_, by decide⟩
  rw [hobj]
  rw [memberSlots]
  rw [processSlots_eq_map]
  simp only [List.map_append, List.map_cons]
  rw [List.getElem?_append_right (by simp)]
  simp only [List.length_map, Nat.sub_self, List.getElem?_cons_zero]
  rw [slotNode]
  dsimp only [resolveSlot]
  rw [processChild_terminal heap k .vundefined 0 n [id]
    (by simp [getPropertyType])]
  simp [getPropertyType]

/-- Closed instance of `C7_setter_only`. -/
theorem C7_witness :
    ∃ cs, buildPropertyTree (fun _ => .obj [("w", .setterOnly)]) (.vref 0)
        ((1 : ℕ) : ℚ) "root" = .ok (.mk "root" .object none (some cs)) ∧
      cs[0]? = some (.mk "w" .undefined (some .vundefined) none) ∧
      PropertyType.undefined ≠ PropertyType.error := by
  simpa using
    C7_setter_only (fun _ => .obj [("w", .setterOnly)]) 0 [] [] "w" 1 "root" rfl
      (by norm_num)

/-! Claim C5: per-property error isolation. -/

/-- C5: in a composite with one property whose accessor raises and all other
properties resolving normally, the built children sequence has the throwing
property as an access-error node (the fixed marker as value, no children)
in place, while every sibling is processed by the ordinary per-member rule,
with its type the classification of its resolved value; the failure never
escapes `buildPropertyTree`, which returns `ok`. -/
theorem C5_error_isolation (heap : Heap) (id : Nat)
    (ps₁ ps₂ : List (String × PropSlot)) (k : String) (n : ℕ)
    (rootName : String)
    (hobj : heap id = .obj (ps₁ ++ (k, .getter none) :: ps₂)) (hn : 1 ≤ n)
    (hok : ∀ p ∈ ps₁ ++ ps₂, resolveSlot p.2 ≠ none) :
    ∃ cs, buildPropertyTree heap (.vref id) (n : ℚ) rootName =
        .ok (.mk rootName .object none (some cs)) ∧
      cs = ps₁.map (fun p => slotNode heap 0 n [id] (p.1, resolveSlot p.2)) ++
        accessErrorNode k ::
          ps₂.map (fun p => slotNode heap 0 n [id] (p.1, resolveSlot p.2)) ∧
      accessErrorNode k = .mk k .error (some (.vstr ACCESS_ERROR_MARKER)) none ∧
      (∀ p ∈ ps₁ ++ ps₂, ∃ v, resolveSlot p.2 = some v ∧
        slotNode heap 0 n [id] (p.1, resolveSlot p.2) =
          processChild heap p.1 v 0 n [id] ∧
        (processChild heap p.1 v 0 n [id]).type = getPropertyType heap v) := by
  have hty : getPropertyType heap (.vref id) = .object := by
    simp [getPropertyType, hobj]
  have hn0 : n ≠ 0 := by omega
  rw [buildPropertyTree_natCast]
  rw [buildTree.eq_def]
  dsimp only
  rw [hty]
  simp only [ne_eq, not_true_eq_false, false_and, if_false, reduceCtorEq, or_false,
    or_self, hn0, if_neg, ite_false]
  refine ⟨processSlots heap (memberSlots (heap id)) 0 n [id], rfl, ?_, rfl, ?_⟩
  · rw [hobj]
    rw [memberSlots]
    rw [processSlots_eq_map]
    simp only [List.map_append, List.map_cons, List.map_map]
    rfl
  · intro p hp
    cases hr : resolveSlot p.2 with
    | none => exact absurd hr (hok p hp)
    | some v =>
      exact ⟨v, rfl, rfl, processChild_type heap p.1 v 0 n [id]⟩

/-- Closed instance of `C5_error_isolation`: a throwing getter between two
normal properties. -/
theorem C5_witness :
    ∃ cs, buildPropertyTree
        (fun _ => .obj [("good", .data (.vnum 1)), ("bad", .getter none),
          ("alsoGood", .data (.vstr "ok"))])
        (.vref 0) ((1 : ℕ) : ℚ) "root" =
        .ok (.mk "root" .object none (some cs)) ∧
      cs = [.mk "good" .number (some (.vnum 1)) none] ++
        accessErrorNode "bad" :: [.mk "alsoGood" .string (some (.vstr "ok")) none] := by
  obtain ⟨cs, h1, h2, -, -⟩ :=
    C5_error_isolation
      (fun _ => .obj [("good", .data (.vnum 1)), ("bad", .getter none),
        ("alsoGood", .data (.vstr "ok"))])
      0 [("good", .data (.vnum 1))] [("alsoGood", .data (.vstr "ok"))] "bad" 1
      "root" rfl (by norm_num) (by decide)
  refine ⟨cs, h1, ?_⟩
  rw [h2]
  simp only [List.map_cons, List.map_nil]
  rw [slotNode, slotNode]
  dsimp only [resolveSlot]
  rw [processChild_terminal _ _ _ _ _ _ (by simp [getPropertyType]),
    processChild_terminal _ _ _ _ _ _ (by simp [getPropertyType])]
  simp [getPropertyType]

/-! Claim C10: path-scoped cycle detection and duplication of shared
subgraphs. -/

/-- A heap with one object (`0`) holding two properties `a` and `b` that both
reference the same object `1` (a shared, non-cyclic subgraph). -/
def exampleSharedHeap : Heap := fun n =>
  if n = 0 then .obj [("a", .data (.vref 1)), ("b", .data (.vref 1))]
  else .obj [("x", .data (.vnum 7))]

/-- C10: within the depth bound, a container member is marked with the
circular-reference marker exactly when its reference is in the current
path's visited set (the set of its ancestors' container references: the root
call seeds it with the root reference and each expansion extends it with
exactly the expanded member's reference, as the second conjunct states); and
a container shared between two non-ancestor paths is fully expanded at both
occurrences, duplicating its subtree, as on the example heap. -/
theorem C10_path_scoped_cycles :
    (∀ (heap : Heap) (name : String) (id : Nat) (d maxD : Nat)
      (visited : List Nat), d + 1 < maxD →
      ((processChild heap name (.vref id) d maxD visited).value =
          some (.vstr CIRCULAR_REFERENCE_MARKER) ↔ id ∈ visited)) ∧
    (∀ (heap : Heap) (name : String) (id : Nat) (d maxD : Nat)
      (visited : List Nat), d + 1 < maxD → id ∉ visited →
      (processChild heap name (.vref id) d maxD visited).children =
        some (processSlots heap (memberSlots (heap id)) (d + 1) maxD
          (id :: visited))) ∧
    buildPropertyTree exampleSharedHeap (.vref 0) ((2 : ℕ) : ℚ) "root" =
      .ok (.mk "root" .object none (some
        [.mk "a" .object none (some [.mk "x" .number (some (.vnum 7)) none]),
         .mk "b" .object none
           (some [.mk "x" .number (some (.vnum 7)) none])])) := by
  refine ⟨?_, ?_, ?_⟩
  · intro heap name id d maxD visited hd
    by_cases hv : id ∈ visited
    · rw [processChild_cycle heap name id d maxD visited hd hv]
      simp [PropertyTreeNode.value, hv]
    · rw [processChild_expand heap name id d maxD visited hd hv]
      simp [PropertyTreeNode.value, hv]
  · intro heap name id d maxD visited hd hv
    rw [processChild_expand heap name id d maxD visited hd hv]
    rfl
  · rw [buildPropertyTree_natCast]
    simp [buildTree, getPropertyType, exampleSharedHeap, memberSlots, resolveSlot,
      processSlots, processChild]

/-- Closed instance of the quantified parts of `C10_path_scoped_cycles`. -/
theorem C10_witness :
    (processChild exampleSelfHeap "self" (.vref 0) 0 2 [0]).value =
      some (.vstr CIRCULAR_REFERENCE_MARKER) ∧
    (processChild exampleSharedHeap "a" (.vref 1) 0 2 [0]).children =
      some (processSlots exampleSharedHeap (memberSlots (exampleSharedHeap 1))
        1 2 [1, 0]) :=
  ⟨(C10_path_scoped_cycles.1 exampleSelfHeap "self" 0 0 2 [0]
      (by norm_num)).mpr (by simp),
   C10_path_scoped_cycles.2.1 exampleSharedHeap "a" 1 0 2 [0] (by norm_num)
     (by simp)⟩


/-! Claim C9: determinism. -/

/-- C9: building and rendering is a pure function of the heap, the input
value, the depth and the root name: two runs on the same input produce
identical output. -/
theorem C9_deterministic (heap : Heap) (obj : Value) (q : ℚ)
    (rootName : String) :
    Except.map formatPropertyTreeToString (buildPropertyTree heap obj q rootName) =
      Except.map formatPropertyTreeToString (buildPropertyTree heap obj q rootName) :=
  rfl

/-! Claim C3: text value rendering. -/

/-- Modelled from the spec: the claimed text-suffix rule, following the
spec's words — escape newlines, truncate the ESCAPED string to its first 50
characters, append the three-dot ellipsis iff that truncation removed
characters, wrap in double quotes.  Used only to compare the claim against
the code, whose ellipsis condition tests the original string's length
instead. -/
def claimedTextSuffix (s : String) : String :=
  let escaped := escapeNewlines s
  let truncated := sliceChars escaped 50
  ": \"" ++ (truncated ++
    ((if truncated.length < escaped.length then "..." else "") ++ "\""))

/-- C3 counterexample: for a 50-character string containing one newline the
escaped form has 51 characters, so truncation to 50 removes a character, yet
the code appends no ellipsis because the original length is not above 50.
The rendered suffix therefore differs from the claimed rule. -/
theorem C3_counterexample :
    valueSuffix .string
        (some (.vstr (String.mk (List.replicate 49 'a' ++ ['\n'])))) ≠
      claimedTextSuffix (String.mk (List.replicate 49 'a' ++ ['\n'])) := by
  decide

/-- C3, amended: for a text node whose value is neither of the two fixed
marker strings, the rendered line ends with the value suffix obtained by
escaping newlines, truncating the escaped string to its first 50 characters,
appending the three-dot ellipsis iff the ORIGINAL string is longer than 50
characters, and wrapping the result in double quotes. -/
theorem C3_text_rendering (s name indent : String) (isLast : Bool)
    (hm1 : s ≠ CIRCULAR_REFERENCE_MARKER) (hm2 : s ≠ ACCESS_ERROR_MARKER) :
    formatNodeToString (.mk name .string (some (.vstr s)) none) indent isLast =
      (indent ++ (if isLast then "└─ " else "├─ ")) ++
        (name ++ ((" (" ++ ("string" ++ ")")) ++
          (": \"" ++ ((sliceChars (escapeNewlines s) 50) ++
            ((if s.length > 50 then "..." else "") ++ "\""))))) := by
  have hni : ¬(Value.vstr s = .vstr CIRCULAR_REFERENCE_MARKER ∨
      Value.vstr s = .vstr ACCESS_ERROR_MARKER) := by
    rintro (hh | hh)
    · exact hm1 (by injection hh)
    · exact hm2 (by injection hh)
  rw [formatNodeToString.eq_def]
  dsimp only
  rw [valueSuffix]
  rw [if_neg hni]
  rw [if_pos (show PropertyType.string ≠ .object ∧ PropertyType.string ≠ .array ∧
    PropertyType.string ≠ .func by decide)]
  rfl

/-- Closed instance of `C3_text_rendering` at the string "hello". -/
theorem C3_witness :
    formatNodeToString (.mk "root" .string (some (.vstr "hello")) none) "" true =
      ("" ++ (if true then "└─ " else "├─ ")) ++
        ("root" ++ ((" (" ++ ("string" ++ ")")) ++
          (": \"" ++ ((sliceChars (escapeNewlines "hello") 50) ++
            ((if "hello".length > 50 then "..." else "") ++ "\""))))) :=
  C3_text_rendering "hello" "root" "" true (by decide) (by decide)


/-! Renderer line-ending infrastructure (claim C8): rendered output is
nonempty and never ends with a newline. -/

/-- A nonempty string whose final character is not a newline. -/
abbrev lastCharOk (s : String) : Prop :=
  s.data ≠ [] ∧ s.data.getLast? ≠ some '\n'

theorem lastCharOk_append (a : String) {b : String} (h : lastCharOk b) :
    lastCharOk (a ++ b) := by
  obtain ⟨h1, h2⟩ := h
  constructor
  · rw [String.data_append]
    simp [h1]
  · rw [String.data_append, List.getLast?_append]
    cases hb : b.data.getLast? with
    | none => exact absurd (List.getLast?_eq_none_iff.mp hb) h1
    | some c =>
      rw [hb] at h2
      simpa [Option.or] using h2

theorem toDigitsCore_getLast? (b : Nat) :
    ∀ (fuel n : Nat) (ds : List Char), ds ≠ [] →
      (Nat.toDigitsCore b fuel n ds).getLast? = ds.getLast? := by
  intro fuel
  induction fuel with
  | zero => intro n ds _; rfl
  | succ fuel ih =>
    intro n ds hds
    simp only [Nat.toDigitsCore]
    split
    · obtain ⟨d, ds2, rfl⟩ := List.exists_cons_of_ne_nil hds
      rw [List.getLast?_cons_cons]
    · obtain ⟨d2, ds2, rfl⟩ := List.exists_cons_of_ne_nil hds
      rw [ih (n / b) (Nat.digitChar (n % b) :: d2 :: ds2) (by simp)]
      rw [List.getLast?_cons_cons]

theorem toDigits_getLast? (n : Nat) :
    (Nat.toDigits 10 n).getLast? = some (Nat.digitChar (n % 10)) := by
  rw [Nat.toDigits]
  simp only [Nat.toDigitsCore]
  split
  · rfl
  · rw [toDigitsCore_getLast? 10 n (n / 10) [Nat.digitChar (n % 10)] (by simp)]
    rfl

theorem digitChar_ne_newline (n : Nat) : Nat.digitChar (n % 10) ≠ '\n' := by
  have h : n % 10 < 10 := Nat.mod_lt _ (by norm_num)
  revert h
  generalize n % 10 = m
  intro h
  interval_cases m <;> decide

theorem natRepr_lastCharOk (n : Nat) : lastCharOk (Nat.repr n) := by
  have hl := toDigits_getLast? n
  have hdata : (Nat.repr n).data = Nat.toDigits 10 n := rfl
  constructor
  · rw [hdata]
    intro hc
    rw [hc] at hl
    exact Option.noConfusion hl
  · rw [hdata, hl]
    intro hc
    injection hc with hc
    exact digitChar_ne_newline n hc

theorem intToString_lastCharOk (n : Int) : lastCharOk (toString n) := by
  cases n with
  | ofNat m => exact natRepr_lastCharOk m
  | negSucc m => exact lastCharOk_append "-" (natRepr_lastCharOk (m + 1))

/-- Value slots that render without producing a trailing newline hazard:
never a container reference or a callable.  Such slots never occur on built
trees. -/
def valueOk : Option Value → Bool
  | some (.vref _) => false
  | some .vfunc => false
  | _ => true

theorem builtNodeOk_imp_valueOk (maxD d : Nat) (n : PropertyTreeNode)
    (h : builtNodeOk maxD d n = true) : valueOk n.value = true := by
  obtain ⟨name, ty, v, ch⟩ := n
  rw [builtNodeOk.eq_def] at h
  dsimp only at h
  rw [Bool.and_eq_true, Bool.and_eq_true, Bool.and_eq_true] at h
  have hm := h.2.2.2
  cases v with
  | none => rfl
  | some val =>
    cases val with
    | vref id => simp at hm
    | vfunc => simp at hm
    | vnull => rfl
    | vundefined => rfl
    | vbool b => rfl
    | vnum m => rfl
    | vstr s => rfl
    | vsym s => rfl
    | vbigint m => rfl

theorem valueSuffix_lastCharOk (ty : PropertyType) (v : Option Value)
    (hv : valueOk v = true) :
    valueSuffix ty v = "" ∨ lastCharOk (valueSuffix ty v) := by
  cases v with
  | none => exact Or.inl rfl
  | some val =>
    rw [valueSuffix.eq_def]
    dsimp only
    by_cases hm : val = .vstr CIRCULAR_REFERENCE_MARKER ∨
        val = .vstr ACCESS_ERROR_MARKER
    · rw [if_pos hm]
      right
      rcases hm with hm | hm <;> rw [hm] <;> exact lastCharOk_append _ (by decide)
    · rw [if_neg hm]
      by_cases hty : ty ≠ .object ∧ ty ≠ .array ∧ ty ≠ .func
      · rw [if_pos hty]
        cases val with
        | vstr s =>
          right
          dsimp only
          exact lastCharOk_append _ (lastCharOk_append _ (lastCharOk_append _
            (by decide)))
        | vnull => right; exact lastCharOk_append _ (by decide)
        | vundefined => right; exact lastCharOk_append _ (by decide)
        | vbool b => right; cases b <;> exact lastCharOk_append _ (by decide)
        | vnum m => right; exact lastCharOk_append _ (intToString_lastCharOk m)
        | vbigint m => right; exact lastCharOk_append _ (intToString_lastCharOk m)
        | vsym s =>
          right
          dsimp only [jsTemplate]
          exact lastCharOk_append _ (lastCharOk_append _ (by decide))
        | vref id => simp [valueOk] at hv
        | vfunc => simp [valueOk] at hv
      · rw [if_neg hty]
        exact Or.inl rfl

theorem nodeLine_lastCharOk (indent : String) (isLast : Bool) (name : String)
    (ty : PropertyType) (v : Option Value) (hv : valueOk v = true) :
    lastCharOk ((indent ++ (if isLast then "└─ " else "├─ ")) ++
      (name ++ ((" (" ++ (typeName ty ++ ")")) ++ valueSuffix ty v))) := by
  rcases valueSuffix_lastCharOk ty v hv with he | hok
  · rw [he, String.append_empty]
    exact lastCharOk_append _ (lastCharOk_append _ (lastCharOk_append _
      (lastCharOk_append _ (by decide))))
  · exact lastCharOk_append _ (lastCharOk_append _ (lastCharOk_append _ hok))

theorem joinLines_lastCharOk (ls : List String) :
    ∀ l : String, lastCharOk l → (∀ x ∈ ls, lastCharOk x) →
      lastCharOk (joinLines (l :: ls)) := by
  induction ls with
  | nil => intro l hl _; exact hl
  | cons l2 ls2 ih =>
    intro l hl hx
    have hstep : joinLines (l :: l2 :: ls2) =
        l ++ ("\n" ++ joinLines (l2 :: ls2)) := rfl
    rw [hstep]
    have hrec : lastCharOk (joinLines (l2 :: ls2)) :=
      ih l2 (hx l2 (by simp)) (fun x hmem => hx x (by simp [hmem]))
    exact lastCharOk_append _ (lastCharOk_append _ hrec)

mutual

theorem formatNode_lastCharOk (t : PropertyTreeNode) (indent : String)
    (isLast : Bool) (d : Nat)
    (h : nodeAll (fun _ node => valueOk node.value) d t = true) :
    lastCharOk (formatNodeToString t indent isLast) := by
  obtain ⟨name, ty, v, ch⟩ := t
  rw [formatNodeToString.eq_def]
  cases ch with
  | none =>
    rw [nodeAll] at h
    dsimp only
    exact nodeLine_lastCharOk indent isLast name ty v
      (by simpa [PropertyTreeNode.value] using h)
  | some cs =>
    rw [nodeAll, Bool.and_eq_true] at h
    obtain ⟨hp, hcs⟩ := h
    have hv : valueOk v = true := by
      simpa [PropertyTreeNode.value] using hp
    dsimp only
    by_cases hlen : cs.length > 0
    · rw [if_pos hlen]
      apply joinLines_lastCharOk
      · exact nodeLine_lastCharOk indent isLast name ty v hv
      · exact formatChildren_lastCharOk cs
          (indent ++ (if isLast then "   " else "│  ")) (d + 1) hcs
    · rw [if_neg hlen]
      exact nodeLine_lastCharOk indent isLast name ty v hv

theorem formatChildren_lastCharOk (cs : List PropertyTreeNode)
    (childIndent : String) (d : Nat)
    (h : listAll (fun _ node => valueOk node.value) d cs = true) :
    ∀ x ∈ formatChildrenLines cs childIndent, lastCharOk x := by
  cases cs with
  | nil =>
    intro x hx
    rw [formatChildrenLines] at hx
    exact absurd hx (List.not_mem_nil x)
  | cons c rest =>
    rw [listAll, Bool.and_eq_true] at h
    intro x hx
    rw [formatChildrenLines] at hx
    rcases List.mem_cons.mp hx with hh | hh
    · rw [hh]
      exact formatNode_lastCharOk c childIndent rest.isEmpty d h.1
    · exact formatChildren_lastCharOk rest childIndent d h.2 x hh

end


/-! Claim C8: round-trip example, root connector, no trailing newline. -/

/-- C8: `build("hello", 1)` returns exactly the text node
`{name: "root", kind: string, value: "hello"}` with no children and renders
to the single line with the `└─ ` connector; every rendered tree starts with
the `└─ ` connector; and the rendered output of every built tree is nonempty
with no trailing newline. -/
theorem C8_roundtrip :
    (∀ heap : Heap,
      buildPropertyTree heap (.vstr "hello") ((1 : ℕ) : ℚ) "root" =
        .ok (.mk "root" .string (some (.vstr "hello")) none)) ∧
    formatPropertyTreeToString (.mk "root" .string (some (.vstr "hello")) none) =
      "└─ root (string): \"hello\"" ∧
    (∀ t : PropertyTreeNode, ∃ rest,
      formatPropertyTreeToString t = "└─ " ++ rest) ∧
    (∀ (heap : Heap) (obj : Value) (q : ℚ) (rootName : String)
      (t : PropertyTreeNode),
      buildPropertyTree heap obj q rootName = .ok t →
      (formatPropertyTreeToString t).data ≠ [] ∧
        (formatPropertyTreeToString t).data.getLast? ≠ some '\n') := by
  refine ⟨?_, ?_, ?_, ?_⟩
  · intro heap
    rw [buildPropertyTree_natCast]
    simp [buildTree, getPropertyType]
  · rfl
  · intro t
    obtain ⟨name, ty, v, ch⟩ := t
    rw [formatPropertyTreeToString]
    rw [formatNodeToString.eq_def]
    cases ch with
    | none => exact ⟨_, rfl⟩
    | some cs =>
      cases cs with
      | nil =>
        dsimp only
        rw [if_neg (by simp)]
        exact ⟨_, rfl⟩
      | cons c crest =>
        dsimp only
        rw [if_pos (by simp)]
        exact ⟨(name ++ ((" (" ++ (typeName ty ++ ")")) ++ valueSuffix ty v)) ++
          ("\n" ++ joinLines (formatChildrenLines (c :: crest)
            ("" ++ (if true then "   " else "│  ")))), rfl⟩
  · intro heap obj q rootName t h
    have ht := buildPropertyTree_ok heap obj q rootName t h
    rw [ht]
    have hsafe : nodeAll (fun _ node => valueOk node.value) 0
        (buildTree heap obj q.num.toNat rootName) = true :=
      nodeAll_imp _ _ (fun d node => builtNodeOk_imp_valueOk q.num.toNat d node)
        0 _ (buildTree_builtOk heap obj q.num.toNat rootName)
    exact formatNode_lastCharOk _ "" true 0 hsafe

/-- Closed instance of the quantified parts of `C8_roundtrip`. -/
theorem C8_witness :
    buildPropertyTree exampleSelfHeap (.vstr "hello") ((1 : ℕ) : ℚ) "root" =
      .ok (.mk "root" .string (some (.vstr "hello")) none) ∧
    (formatPropertyTreeToString
        (.mk "root" .string (some (.vstr "hello")) none)).data.getLast? ≠
      some '\n' :=
  ⟨C8_roundtrip.1 exampleSelfHeap,
   (C8_roundtrip.2.2.2 exampleSelfHeap (.vstr "hello") ((1 : ℕ) : ℚ) "root" _
      (C8_roundtrip.1 exampleSelfHeap)).2⟩

end ObjectPropertyTree
